import Mathlib

/-!
# Verification of the QuizGenerator matching/assembly pipeline

Shallow embedding of the filename-driven matching and assembly pipeline of
the QuizGenerator repository (`quiz_pair.py`, `quiz.py`, `quiz_answers.py`).

Modelling conventions, used throughout:

* Python strings are modelled as `String` / `List Char`; regex matching over
  the fixed patterns of the source (`_Q(\d+)_`, `_Q<n>(?:_|$)`,
  `[a-z0-9]+`, the folder-name patterns) is translated into explicit
  recursive scanners with the same leftmost-match semantics.  Python `\d`
  and `[a-z0-9]` are modelled over the ASCII range, and `str.lower` as
  `Char.toLower`, which agrees with Python on ASCII input.  Regex `$` is
  modelled as end-of-string.
* A corpus directory is a list of folders; a folder is its name together
  with the list of stems of its `*.pdf` files, in enumeration order (the
  source enumerates with `glob.glob`, which does not sort).  A file's
  `Path.name` is its stem with the `".pdf"` suffix restored, and a file's
  identity (for deduplication) is the pair (folder name, stem).
* Python's `list.sort` / `sorted` are stable sorts by a total preorder on
  keys; any stable sort computes the same list, so they are modelled with
  `List.insertionSort` (which is stable) over an explicitly defined
  comparator mirroring Python tuple/string/int comparison.
* PDF geometry (`reportlab` overlay coordinates) is modelled over `ℚ`;
  the source computes the same formulas over floating point.  The font
  width oracle `stringWidth` is an external library and is kept abstract
  as a parameter.
* `random.Random(seed).shuffle` is Fisher–Yates driven by the stream of
  values drawn from the seeded generator; the generator is kept abstract
  as a function `rb` from (step index, bound) to a drawn value, so that
  "same seed" is modelled as "same stream function".
-/

/-! ## Character and token utilities (`_normalize_tokens`, `TOKEN_RE`) -/

/-- A character kept by `TOKEN_RE = [a-z0-9]+` (applied after lowering). -/
def isTokChar (c : Char) : Bool :=
  ('a' ≤ c && c ≤ 'z') || ('0' ≤ c && c ≤ '9')

/-- Accumulating scanner producing the maximal `isTokChar` runs of a string,
in order.  `acc` holds the (reversed) run currently being read. -/
def tokenRunsAux : List Char → List Char → List (List Char)
  | [], acc => if acc = [] then [] else [acc.reverse]
  | c :: rest, acc =>
      if isTokChar c then tokenRunsAux rest (c :: acc)
      else if acc = [] then tokenRunsAux rest []
      else acc.reverse :: tokenRunsAux rest []

/-- `_normalize_tokens(s)` of `quiz_pair.py` (= `normalize_tokens` of
`quiz.py` / `quiz_answers.py`): lower-case the string, then return the
maximal alphanumeric runs, via `TOKEN_RE.findall(s.lower())`. -/
def normalize_tokens (s : List Char) : List (List Char) :=
  tokenRunsAux (s.map Char.toLower) []

/-- Python `str.split('_')`: split on underscores, keeping empty segments
(`"a__b".split("_") == ["a","","b"]`, `"".split("_") == [""]`). -/
def splitUnderscoreAux : List Char → List Char → List (List Char)
  | [], acc => [acc.reverse]
  | c :: rest, acc =>
      if c = '_' then acc.reverse :: splitUnderscoreAux rest []
      else splitUnderscoreAux rest (c :: acc)

def splitUnderscore (s : List Char) : List (List Char) :=
  splitUnderscoreAux s []

/-- Value of a decimal digit string, as computed by Python `int(...)` on the
digits captured by `(\d+)` (most significant digit first). -/
def digitsToNat (ds : List Char) : Nat :=
  ds.foldl (fun a c => a * 10 + (c.toNat - '0'.toNat)) 0

/-! ## The question marker `Q_PART_RE = _Q(\d+)_` (case-insensitive)

`re.search` returns the leftmost match.  At a given position the pattern
matches iff the text reads `'_'`, then `q`/`Q`, then a nonempty digit run
whose maximal extent is followed by `'_'` (a shorter, backtracked digit
prefix would be followed by a digit, never by `'_'`, so the captured group
is exactly the maximal run).  The scanner returns the captured digits and
the text after the whole match (after the trailing `'_'`). -/

def qMarkerHere (s : List Char) : Option (List Char × List Char) :=
  match s with
  | u :: c :: rest =>
      let ds := rest.takeWhile Char.isDigit
      let post := rest.dropWhile Char.isDigit
      if u = '_' ∧ c.toLower = 'q' ∧ ds ≠ [] ∧ post.head? = some '_' then
        some (ds, post.tail)
      else none
  | _ => none

def qMarkerSearch : List Char → Option (List Char × List Char)
  | [] => none
  | c :: rest =>
      match qMarkerHere (c :: rest) with
      | some r => some r
      | none => qMarkerSearch rest

/-! ## Answer-filename matching

`_attach_answers` compiles `(?i)_Q{qnum}(?:_|$)` and searches it in the
candidate stem: the stem must contain `_Q` + the decimal digits of `qnum`
followed by `'_'` or the end of the stem, case-insensitively. -/

/-- The literal pattern `_q` + decimal digits of `n` (already lowered). -/
def ansPat (n : Nat) : List Char :=
  '_' :: 'q' :: Nat.toDigits 10 n

/-- Does `s` start with `pat` followed by `'_'` or the end of the string? -/
def ansMatchHere (pat s : List Char) : Bool :=
  if s.take pat.length = pat then
    match s.drop pat.length with
    | [] => true
    | c :: _ => c = '_'
  else false

/-- Search `ansMatchHere` at every suffix (regex `search` semantics). -/
def ansSearch (pat : List Char) : List Char → Bool
  | [] => ansMatchHere pat []
  | c :: rest => ansMatchHere pat (c :: rest) || ansSearch pat rest

/-- `quiz_pair.py` answer-filename match for question number `n`:
`re.compile(rf"(?i)_Q{it.qnum}(?:_|$)").search(p.stem)` succeeds.  The
`(?i)` flag is modelled by lowering the stem (the pattern is already
lower-case; digits and `'_'` are unaffected by case). -/
def parseAnswerFilename (stem : String) (n : Nat) : Bool :=
  ansSearch (ansPat n) (stem.toList.map Char.toLower)

/-! ## The `quiz_answers.py` matcher

`find_answer_pdfs` instead searches `(?i)_Q(\d+)(?:_|$)` (leftmost match),
converts the captured digits with `int`, and tests membership of that
number in the wanted set.  At a position the pattern matches iff `'_'`,
`q`/`Q`, then a nonempty maximal digit run followed by `'_'` or
end-of-string (backtracking cannot shorten the run, as above). -/

def ansTokenHere (s : List Char) : Option Nat :=
  match s with
  | u :: c :: rest =>
      let ds := rest.takeWhile Char.isDigit
      let post := rest.dropWhile Char.isDigit
      if u = '_' ∧ c.toLower = 'q' ∧ ds ≠ [] ∧
          (post = [] ∨ post.head? = some '_') then
        some (digitsToNat ds)
      else none
  | _ => none

def ansTokenSearch : List Char → Option Nat
  | [] => none
  | c :: rest =>
      match ansTokenHere (c :: rest) with
      | some r => some r
      | none => ansTokenSearch rest

/-- Per-file test of `quiz_answers.find_answer_pdfs` for a single wanted
question number `n`: the leftmost `_Q<digits>` token (with a `'_'` or
end-of-string boundary) captures a number equal to `n`. -/
def findAnswerFileMatch (stem : String) (n : Nat) : Bool :=
  match ansTokenSearch stem.toList with
  | some q => q = n
  | none => false

/-! ## Data model (`QKey`, `QItem`, corpus folders) -/

/-- `QKey` of `quiz_pair.py`: subject, season character (stored lowered),
two-digit year, two-digit component. -/
structure QKey where
  subject : String
  season : String
  yy : String
  comp2 : String
deriving DecidableEq, Repr

/-- `QItem` of `quiz_pair.py`.  The source path is modelled by the folder
name and the file stem; `ms` is the optional matched answer path
(`ms_path`), modelled by the answer file's stem. -/
structure QItem where
  key : QKey
  qnum : Nat
  folder : String
  stem : String
  ms : Option String := none
deriving DecidableEq, Repr

/-- One corpus subdirectory: its name and the stems of its `*.pdf` files in
enumeration order. -/
structure Folder where
  name : String
  files : List String
deriving DecidableEq, Repr

/-- A file's `Path.name`: the stem with the `".pdf"` extension restored. -/
def pdfName (stem : String) : String := stem ++ ".pdf"

/-! ## Folder-name parsing (`FOLDER_QP_RE` / `FOLDER_MS_RE`)

`^(\d{4})_([wsm])(\d{2})_(qp|ms)_(\d{2})$`, case-insensitive, fully
anchored.  The season character is stored lowered, as in the source. -/

def parseFolderName (role : List Char) (name : String) : Option QKey :=
  match name.toList with
  | [s1, s2, s3, s4, u1, sc, y1, y2, u2, r1, r2, u3, c1, c2] =>
      if s1.isDigit && s2.isDigit && s3.isDigit && s4.isDigit &&
         u1 = '_' && (sc.toLower = 'w' || sc.toLower = 's' || sc.toLower = 'm') &&
         y1.isDigit && y2.isDigit && u2 = '_' &&
         [r1.toLower, r2.toLower] = role && u3 = '_' &&
         c1.isDigit && c2.isDigit then
        some { subject := ⟨[s1, s2, s3, s4]⟩
               season := ⟨[sc.toLower]⟩
               yy := ⟨[y1, y2]⟩
               comp2 := ⟨[c1, c2]⟩ }
      else none
  | _ => none

def parseFolderQP (name : String) : Option QKey := parseFolderName ['q', 'p'] name

def parseFolderMS (name : String) : Option QKey := parseFolderName ['m', 's'] name

/-- The fixed season table `SEASON_CODE = {Winter: w, Summer: s, Spring: m}`. -/
def seasonCode : List (String × String) :=
  [("Winter", "w"), ("Summer", "s"), ("Spring", "m")]

/-- `_season_ok(picked, season_char)`: some table row has this code and its
name was picked. -/
def season_ok (picked : List String) (seasonChar : String) : Bool :=
  seasonCode.any fun nc => nc.2 = seasonChar && picked.contains nc.1

/-- `any(y.endswith(yy) for y in years)`. -/
def yearMatches (years : List String) (yy : String) : Bool :=
  years.any fun y => yy.toList.isSuffixOf y.toList

/-- `comp2[:1] == comp_no`, comparing the first character of the two-digit
component (as a one-character string) with the selected component digit. -/
def compFirstMatches (comp2 : String) (compNo : String) : Bool :=
  comp2.toList.take 1 = compNo.toList

/-- `_list_qp_folders`: the corpus folders whose name parses as a question
folder and which pass the year / season / component-first-digit filters,
in corpus enumeration order. -/
def list_qp_folders (corpus : List Folder) (years seasons : List String)
    (compNo : String) : List (Folder × QKey) :=
  corpus.filterMap fun f =>
    match parseFolderQP f.name with
    | none => none
    | some key =>
        if yearMatches years key.yy && season_ok seasons key.season &&
           compFirstMatches key.comp2 compNo then
          some (f, key)
        else none

/-! ## Topic tokens (`_filename_topic_tokens`, selection tokens) -/

/-- Union of the normalized tokens of a list of segments, accumulated left
to right as the source's `toks.update(...)` loop does. -/
def tokenUnion (segs : List (List Char)) : Finset (List Char) :=
  segs.foldl (fun acc seg => acc ∪ (normalize_tokens seg).toFinset) ∅

/-- `_filename_topic_tokens(stem)` (= `filename_topics_tokens` of
`quiz.py` / `quiz_answers.py`): empty set when the stem has no `_Q<n>_`
marker; otherwise the token union of the underscore-split segments of the
text after the marker. -/
def filename_topic_tokens (stem : String) : Finset (List Char) :=
  match qMarkerSearch stem.toList with
  | none => ∅
  | some (_, tail) => tokenUnion (splitUnderscore tail)

/-- Selected-topic token set (OR strategy): union of the normalized tokens
of the selected topic display names. -/
def selection_topics_tokens (topicNames : List String) : Finset (List Char) :=
  topicNames.foldl (fun acc nm => acc ∪ (normalize_tokens nm.toList).toFinset) ∅

/-- `parseQuestionFilename` as `_build_manifest` performs it: search the
`_Q<digits>_` marker; no marker means no-match, otherwise the question
number is the captured digits and the topic tokens come from the tail. -/
def parseQuestionFilename (stem : String) : Option (Nat × Finset (List Char)) :=
  match qMarkerSearch stem.toList with
  | none => none
  | some (ds, _) => some (digitsToNat ds, filename_topic_tokens stem)

/-! ## Python comparison semantics

Python's `list.sort(key=...)` compares key tuples lexicographically,
strings by code point, integers numerically.  We realize the comparison as
an explicit three-way comparator and sort with the stable
`List.insertionSort` (any stable sort by a total preorder computes the
same list as CPython's stable Timsort). -/

def cmpNat (a b : Nat) : Ordering :=
  if a < b then .lt else if b < a then .gt else .eq

def cmpChar (a b : Char) : Ordering := cmpNat a.toNat b.toNat

/-- Code-point lexicographic comparison of strings (Python `str` order);
a strict prefix is smaller. -/
def cmpCharList : List Char → List Char → Ordering
  | [], [] => .eq
  | [], _ :: _ => .lt
  | _ :: _, [] => .gt
  | a :: as, b :: bs => (cmpChar a b).then (cmpCharList as bs)

/-- The sort key of `_build_manifest`:
`(it.key.subject, it.key.season, it.key.yy, it.key.comp2, it.qnum,
it.qp_path.name)`, compared as Python compares tuples, written as a chain
of nested comparators. -/
def cmpQ5 (x y : QItem) : Ordering :=
  (cmpNat x.qnum y.qnum).then
    (cmpCharList (pdfName x.stem).toList (pdfName y.stem).toList)

def cmpQ4 (x y : QItem) : Ordering :=
  (cmpCharList x.key.comp2.toList y.key.comp2.toList).then (cmpQ5 x y)

def cmpQ3 (x y : QItem) : Ordering :=
  (cmpCharList x.key.yy.toList y.key.yy.toList).then (cmpQ4 x y)

def cmpQ2 (x y : QItem) : Ordering :=
  (cmpCharList x.key.season.toList y.key.season.toList).then (cmpQ3 x y)

def sortKeyCmp (x y : QItem) : Ordering :=
  (cmpCharList x.key.subject.toList y.key.subject.toList).then (cmpQ2 x y)

/-- The manifest ordering: `x` precedes-or-ties `y` in the sort. -/
def manifestLe (x y : QItem) : Prop := sortKeyCmp x y ≠ .gt

instance : DecidableRel manifestLe := fun x y => by
  unfold manifestLe
  infer_instance

/-! ## `_build_manifest` (`quiz_pair.py`) -/

/-- Processing of one globbed file inside the folder loop of
`_build_manifest`: skip already-seen paths, skip stems without the
`_Q<digits>_` marker; with an empty selected-token set every marker file is
taken, otherwise a file is taken iff its topic tokens intersect the
selection.  Accumulates (manifest so far, seen paths); a path is the pair
(folder name, stem). -/
def manifestFileStep (selTokens : Finset (List Char)) (key : QKey)
    (folderName : String) (acc : List QItem × List (String × String))
    (stem : String) : List QItem × List (String × String) :=
  let (manifest, seen) := acc
  if (folderName, stem) ∈ seen then acc
  else
    match qMarkerSearch stem.toList with
    | none => acc
    | some (ds, _) =>
        let item : QItem :=
          { key := key, qnum := digitsToNat ds, folder := folderName
            stem := stem, ms := none }
        if selTokens = ∅ then
          (manifest ++ [item], seen ++ [(folderName, stem)])
        else if selTokens ∩ filename_topic_tokens stem ≠ ∅ then
          (manifest ++ [item], seen ++ [(folderName, stem)])
        else acc

/-- The manifest in file-discovery order, before the final sort. -/
def build_manifest_unsorted (corpus : List Folder) (years seasons : List String)
    (compNo : String) (topicNames : List String) : List QItem :=
  let sel := selection_topics_tokens topicNames
  ((list_qp_folders corpus years seasons compNo).foldl
    (fun acc fk => fk.1.files.foldl (manifestFileStep sel fk.2 fk.1.name) acc)
    ([], [])).1

/-- `_build_manifest`: discover matching files, then
`manifest.sort(key=...)` on the six-component key (stable sort). -/
def build_manifest (corpus : List Folder) (years seasons : List String)
    (compNo : String) (topicNames : List String) : List QItem :=
  List.insertionSort manifestLe
    (build_manifest_unsorted corpus years seasons compNo topicNames)

/-! ## `collect_matching_pdfs` (`quiz.py`)

The standalone question-side resolver: requires the `_Q<digits>_` marker, a
nonempty file token set, and a nonempty intersection with the selected
tokens; deduplicates matched paths.  Returns (folder name, stem) pairs in
discovery order. -/

def collectFileStep (selTokens : Finset (List Char)) (folderName : String)
    (matched : List (String × String)) (stem : String) :
    List (String × String) :=
  if (qMarkerSearch stem.toList).isSome then
    if filename_topic_tokens stem = ∅ then matched
    else if selTokens ∩ filename_topic_tokens stem ≠ ∅ then
      if (folderName, stem) ∈ matched then matched
      else matched ++ [(folderName, stem)]
    else matched
  else matched

def collect_matching_pdfs (folders : List Folder)
    (selTokens : Finset (List Char)) : List (String × String) :=
  folders.foldl
    (fun acc f => f.files.foldl (collectFileStep selTokens f.name) acc) []

/-! ## `_index_ms_folders` and `_attach_answers` (`quiz_pair.py`) -/

/-- `_index_ms_folders`: map each parsed answer-folder key to that folder's
file stems, later keys overwriting earlier ones (dict insertion). -/
def index_ms_folders (msCorpus : List Folder) : QKey → Option (List String) :=
  msCorpus.foldl
    (fun idx f =>
      match parseFolderMS f.name with
      | none => idx
      | some key => fun k => if k = key then some f.files else idx k)
    (fun _ => none)

/-- Binding of one manifest record: look up the answer folder for the
record's key; candidates are the folder's files in path-sorted order; the
first stem matching `_Q<qnum>(_|$)` wins.  Returns the (possibly updated)
record and whether it goes to `missing`. -/
def bindOne (idx : QKey → Option (List String)) (it : QItem) : QItem × Bool :=
  match idx it.key with
  | none => (it, true)
  | some files =>
      match (List.insertionSort
          (fun a b => cmpCharList (pdfName a).toList (pdfName b).toList ≠ .gt)
          files).find? (fun stem => parseAnswerFilename stem it.qnum) with
      | some f => ({ it with ms := some f }, false)
      | none => (it, true)

/-- `_attach_answers(manifest)`: returns the manifest with answers bound in
place, and the list of records that got no answer. -/
def attach_answers (idx : QKey → Option (List String))
    (manifest : List QItem) : List QItem × List QItem :=
  (manifest.map (fun it => (bindOne idx it).1),
   (manifest.filter (fun it => (bindOne idx it).2)).map
     (fun it => (bindOne idx it).1))

/-! ## Shuffle (`random.Random(seed).shuffle(order)`) and output ordering

`build_quiz_and_answers` builds `order = list(range(len(manifest)))` and,
when shuffling, applies CPython's Fisher–Yates: for `i` from `len-1` down
to `1`, draw `j` uniformly from `[0, i]` and swap positions `i` and `j`.
The seeded generator is abstracted as `rb : Nat → Nat → Nat`, giving the
value drawn at loop position `i` with bound `i+1`; it is reduced mod the
bound, which is the identity on the values the real generator produces. -/

/-- Swap the elements at positions `i` and `j` (identity when out of range). -/
def listSwap (l : List Nat) (i j : Nat) : List Nat :=
  match l.get? i, l.get? j with
  | some x, some y => (l.set i y).set j x
  | _, _ => l

def pyShuffleAux (rb : Nat → Nat → Nat) : Nat → List Nat → List Nat
  | 0, l => l
  | i + 1, l => pyShuffleAux rb i (listSwap l (i + 1) (rb (i + 1) (i + 2) % (i + 2)))

/-- `random.shuffle` on a list, driven by the drawn-value stream `rb`. -/
def pyShuffle (rb : Nat → Nat → Nat) (l : List Nat) : List Nat :=
  pyShuffleAux rb (l.length - 1) l

/-- `[manifest[i] for i in order]` (indices outside the list are dropped;
the source never produces any). -/
def applyOrder (manifest : List QItem) (order : List Nat) : List QItem :=
  order.filterMap (fun i => manifest.get? i)

/-- `quiz_pages = [manifest[i].qp_path for i in order]`, as (folder, stem)
paths rendered `folder/stem.pdf`. -/
def quizPages (manifest : List QItem) (order : List Nat) : List String :=
  (applyOrder manifest order).map (fun it => it.folder ++ "/" ++ pdfName it.stem)

/-- `ans_pages = [manifest[i].ms_path for i in order if manifest[i].ms_path]`. -/
def ansPages (manifest : List QItem) (order : List Nat) : List String :=
  (applyOrder manifest order).filterMap (fun it => it.ms)

/-! ## Final assembly bookkeeping (`build_quiz_and_answers`, tail) -/

/-- The `stats` dictionary returned by `build_quiz_and_answers`. -/
structure Stats where
  matched_questions : Nat
  missing_answers : Nat
  quiz_pages : Nat
  answer_pages : Nat
  output_quiz : String
  output_answers : Option String
deriving DecidableEq, Repr

/-- The post-binding tail of `build_quiz_and_answers` (lines 453–513): given
the bound manifest, the `missing` list and the index order, emit the quiz
output, emit the answer output only when some answer page exists
(`ans_path = None` otherwise), and return the statistics record.  Writing
of the two PDF files is abstracted to their target path names. -/
def assembleOutputs (manifest missing : List QItem) (order : List Nat)
    (quizPath ansPath : String) : Option String × Option String × Stats :=
  let qp := quizPages manifest order
  let ap := ansPages manifest order
  let ansOut : Option String := if ap = [] then none else some ansPath
  (some quizPath, ansOut,
   { matched_questions := manifest.length
     missing_answers := missing.length
     quiz_pages := qp.length
     answer_pages := ap.length
     output_quiz := quizPath
     output_answers := ansOut })

/-- Total page count of an output document assembled by concatenating the
listed source documents: merging appends every page of every source
(`merge_pdfs` / `_merge_with_numbers` both write one output page per input
page), so the output's page count is the sum of the sources' counts. -/
def totalPages (pageCount : String → Nat) (docs : List String) : Nat :=
  (docs.map pageCount).sum

/-! ## Renumbering overlays (`_merge_with_numbers`)

Geometry is modelled over `ℚ` (the source computes the same formulas over
floats); the `reportlab` font-width oracle `stringWidth` is the abstract
parameter `tw`.  The graphics drawn onto one output page are summarized by
an `Overlay` value: nothing, an opaque white rectangle, a rectangle with
the label text drawn inside it, or (corner anchors) bare label text. -/

/-- A PDF box: left, bottom, width, height (what `_box_metrics` extracts). -/
structure Box where
  left : ℚ
  bottom : ℚ
  w : ℚ
  h : ℚ
deriving DecidableEq, Repr

/-- One source page: media box and crop box (`getattr(page, "cropbox",
page.mediabox)` — a page without a crop box is modelled with
`crop = media`). -/
structure Page where
  media : Box
  crop : Box
deriving DecidableEq, Repr

inductive Overlay where
  | noOv : Overlay
  | blankRect (x y w h : ℚ) : Overlay
  | labelRect (x y w h : ℚ) (lbl : String) (tx ty : ℚ) : Overlay
  | cornerLabel (lbl : String) (tx ty : ℚ) : Overlay
deriving DecidableEq, Repr

/-- Upper-cased anchor string (`where.upper()`). -/
def strUpper (s : String) : String := ⟨s.toList.map Char.toUpper⟩

/-- The overlay `_merge_with_numbers` draws on the page with in-question
index `pIdx` (0-based) of the question labelled `lbl`, translated branch
for branch from the source. -/
def overlayFor (tw : String → ℚ) (whereStr : String) (margin fontSize : ℚ)
    (blankOther : Bool) (lbl : String) (pg : Page) (pIdx : Nat) : Overlay :=
  let textW := tw lbl
  let rectW := max 140 (textW + 16)
  let rectH := fontSize + 6
  let cb := pg.crop
  let centerMode : Bool := strUpper whereStr = "TC" || strUpper whereStr = "BC"
  let needLabel : Bool := pIdx = 0
  let needBlank : Bool := decide (0 < pIdx) && blankOther && centerMode
  if needLabel = false ∧ needBlank = false then .noOv
  else if strUpper whereStr = "TC" ∨ strUpper whereStr = "BC" then
    let rectX := cb.left + cb.w / 2 - rectW / 2
    let rectY :=
      if strUpper whereStr = "TC" then cb.bottom + cb.h - margin - rectH
      else cb.bottom + margin
    if needLabel then
      .labelRect rectX rectY rectW rectH lbl
        (rectX + (rectW - textW) / 2) (rectY + (rectH - fontSize) / 2)
    else .blankRect rectX rectY rectW rectH
  else
    if needLabel then
      if strUpper whereStr = "TL" then
        .cornerLabel lbl (cb.left + margin) (cb.bottom + cb.h - margin - fontSize)
      else if strUpper whereStr = "TR" then
        .cornerLabel lbl (cb.left + cb.w - margin - textW)
          (cb.bottom + cb.h - margin - fontSize)
      else if strUpper whereStr = "BL" then
        .cornerLabel lbl (cb.left + margin) (cb.bottom + margin)
      else
        .cornerLabel lbl (cb.left + cb.w - margin - textW) (cb.bottom + margin)
    else .noOv

/-- `_merge_with_numbers` over a list of question documents (each a list of
pages): every input page becomes one output page carrying its overlay; the
question at 1-based position `n` is labelled `"Q" ++ n` (the default
`label_fmt = "Q" + n` used by `build_quiz_and_answers`). -/
def merge_with_numbers (tw : String → ℚ) (whereStr : String)
    (margin fontSize : ℚ) (blankOther : Bool) (docs : List (List Page)) :
    List (Page × Overlay) :=
  List.flatten <| docs.enum.map fun iDoc =>
    iDoc.2.enum.map fun pPg =>
      (pPg.2,
       overlayFor tw whereStr margin fontSize blankOther
         ("Q" ++ toString (iDoc.1 + 1)) pPg.2 pPg.1)

/-- The overlay behaviour as the specification describes it, organized by
page role: a first page gets the filled, labelled rectangle at the two
center anchors and a bare corner label otherwise; a continuation page gets
the opaque blank rectangle at the center anchors (when masking is on) and
nothing otherwise. -/
def overlaySpec (tw : String → ℚ) (whereStr : String) (margin fontSize : ℚ)
    (blankOther : Bool) (lbl : String) (pg : Page) (pIdx : Nat) : Overlay :=
  let textW := tw lbl
  let rectW := max 140 (textW + 16)
  let rectH := fontSize + 6
  let cb := pg.crop
  let rectX := cb.left + cb.w / 2 - rectW / 2
  let rectY :=
    if strUpper whereStr = "TC" then cb.bottom + cb.h - margin - rectH
    else cb.bottom + margin
  if pIdx = 0 then
    if strUpper whereStr = "TC" ∨ strUpper whereStr = "BC" then
      .labelRect rectX rectY rectW rectH lbl
        (rectX + (rectW - textW) / 2) (rectY + (rectH - fontSize) / 2)
    else if strUpper whereStr = "TL" then
      .cornerLabel lbl (cb.left + margin) (cb.bottom + cb.h - margin - fontSize)
    else if strUpper whereStr = "TR" then
      .cornerLabel lbl (cb.left + cb.w - margin - textW)
        (cb.bottom + cb.h - margin - fontSize)
    else if strUpper whereStr = "BL" then
      .cornerLabel lbl (cb.left + margin) (cb.bottom + margin)
    else
      .cornerLabel lbl (cb.left + cb.w - margin - textW) (cb.bottom + margin)
  else
    if blankOther ∧ (strUpper whereStr = "TC" ∨ strUpper whereStr = "BC") then
      .blankRect rectX rectY rectW rectH
    else .noOv

/-! ## Characterization of answer-filename matching (C1) -/

/-- The token boundary after `_Q<digits>`: underscore or end of string. -/
def AnsBoundary (post : List Char) : Prop :=
  post = [] ∨ ∃ rest, post = '_' :: rest

/-- Specification-side containment: the lowered stem contains the pattern
`_q` + digits of `n` followed by a token boundary. -/
def ContainsAnsToken (stem : String) (n : Nat) : Prop :=
  ∃ pre post, stem.toList.map Char.toLower = pre ++ ansPat n ++ post ∧
    AnsBoundary post

/-- Is the pattern present at the head of `s`? -/
def hitHere (pat s : List Char) : Bool := s.take pat.length = pat

/-- Is the character right after a head occurrence of `pat` a digit? -/
def followedByDigit (pat s : List Char) : Bool :=
  match s.drop pat.length with
  | d :: _ => d.isDigit
  | [] => false

/-- Every occurrence of `pat` in `s` is immediately followed by a digit. -/
def everyHitDigit (pat : List Char) : List Char → Bool
  | [] => true
  | c :: rest =>
      (!(hitHere pat (c :: rest)) || followedByDigit pat (c :: rest)) &&
        everyHitDigit pat rest

/-! ## Characterization of question-filename parsing (C4) -/

/-- Specification-side containment of the marker `_Q<digits>_`
(case-insensitive): some decomposition exhibits `'_'`, a `q`/`Q`, a
nonempty digit run, and a closing `'_'`. -/
def ContainsQMarker (s : List Char) : Prop :=
  ∃ pre c ds post, s = pre ++ '_' :: c :: (ds ++ '_' :: post) ∧
    c.toLower = 'q' ∧ ds ≠ [] ∧ ∀ d ∈ ds, d.isDigit

/-! ## C3: renumbering overlays -/

/-- Does the overlay carry a filled rectangle with the label inside it? -/
def isLabeledRect : Overlay → Bool
  | .labelRect _ _ _ _ _ _ _ => true
  | _ => false

/-! ## Theorems -/

example : parseAnswerFilename "B_Q1_ANS" 1 = true := by decide

example : parseAnswerFilename "B_Q10_ANS" 1 = false := by decide

example : parseAnswerFilename "B_Q10" 10 = true := by decide

example : parseAnswerFilename "b_q2_x" 2 = true := by decide

example : findAnswerFileMatch "B_Q10_ANS" 1 = false := by decide

example : findAnswerFileMatch "_Q10_Q1" 1 = false := by decide

example : parseAnswerFilename "_Q10_Q1" 1 = true := by decide

example : findAnswerFileMatch "_Q01" 1 = true := by decide

example : qMarkerSearch "A_Q8_Coordinate_geometry".toList =
    some (['8'], "Coordinate_geometry".toList) := by decide

example : normalize_tokens "Coordinate-GEO2metry".toList =
    [['c','o','o','r','d','i','n','a','t','e'], ['g','e','o','2','m','e','t','r','y']] := by
  decide

example : parseFolderQP "9709_w24_qp_11" =
    some ⟨"9709", "w", "24", "11"⟩ := by decide

example : parseFolderQP "9709_W24_QP_13" =
    some ⟨"9709", "w", "24", "13"⟩ := by decide

example : parseFolderQP "9709_w24_ms_11" = none := by decide

example : parseFolderMS "9709_s23_ms_42" =
    some ⟨"9709", "s", "23", "42"⟩ := by decide

example : parseFolderQP "9709_w24_qp_1" = none := by decide

example : season_ok ["Winter", "Summer"] "w" = true := by decide

example : season_ok ["Summer"] "w" = false := by decide

example : yearMatches ["2024"] "24" = true := by decide

example : compFirstMatches "12" "1" = true := by decide

example : compFirstMatches "41" "1" = false := by decide

example : filename_topic_tokens "A_Q8_Coordinate_geometry" =
    {['c','o','o','r','d','i','n','a','t','e'], ['g','e','o','m','e','t','r','y']} := by decide

example : filename_topic_tokens "A_Q1_" = ∅ := by decide

example : filename_topic_tokens "A_Q8" = ∅ := by decide

example : parseQuestionFilename "A_Q12_Series" =
    some (12, {['s','e','r','i','e','s']}) := by decide

example : parseQuestionFilename "paper" = none := by decide

example : selection_topics_tokens ["Coordinate geometry"] =
    {['c','o','o','r','d','i','n','a','t','e'], ['g','e','o','m','e','t','r','y']} := by decide

theorem then_ne_gt {o p : Ordering} :
    o.then p ≠ .gt ↔ o = .lt ∨ (o = .eq ∧ p ≠ .gt) := by
  cases o <;> simp [Ordering.then]

theorem cmpNat_symm (a b : Nat) : (cmpNat a b).swap = cmpNat b a := by
  unfold cmpNat
  by_cases h1 : a < b <;> by_cases h2 : b < a <;>
    simp [h1, h2, Ordering.swap]
  all_goals omega

theorem cmpNat_eq_iff {a b : Nat} : cmpNat a b = .eq ↔ a = b := by
  unfold cmpNat
  by_cases h1 : a < b <;> by_cases h2 : b < a <;> simp [h1, h2]
  all_goals omega

theorem cmpNat_lt_iff {a b : Nat} : cmpNat a b = .lt ↔ a < b := by
  unfold cmpNat
  by_cases h1 : a < b <;> by_cases h2 : b < a <;> simp [h1, h2]

theorem cmpChar_symm (a b : Char) : (cmpChar a b).swap = cmpChar b a :=
  cmpNat_symm _ _

theorem cmpChar_eq_iff {a b : Char} : cmpChar a b = .eq ↔ a = b := by
  unfold cmpChar
  rw [cmpNat_eq_iff]
  exact ⟨fun h => Char.eq_of_val_eq (UInt32.ext h), fun h => h ▸ rfl⟩

theorem cmpChar_lt_trans {a b c : Char} (h1 : cmpChar a b = .lt)
    (h2 : cmpChar b c = .lt) : cmpChar a c = .lt := by
  unfold cmpChar at *
  rw [cmpNat_lt_iff] at *
  omega

theorem cmpCharList_symm (a b : List Char) :
    (cmpCharList a b).swap = cmpCharList b a := by
  induction a generalizing b with
  | nil => cases b <;> rfl
  | cons x xs ih =>
      cases b with
      | nil => rfl
      | cons y ys =>
          simp only [cmpCharList, Ordering.swap_then, cmpChar_symm, ih]

theorem cmpCharList_eq_iff {a b : List Char} :
    cmpCharList a b = .eq ↔ a = b := by
  induction a generalizing b with
  | nil => cases b <;> simp [cmpCharList]
  | cons x xs ih =>
      cases b with
      | nil => simp [cmpCharList]
      | cons y ys =>
          simp [cmpCharList, Ordering.then_eq_eq, cmpChar_eq_iff, ih]

theorem cmpCharList_le_trans : ∀ {a b c : List Char},
    cmpCharList a b ≠ .gt → cmpCharList b c ≠ .gt → cmpCharList a c ≠ .gt
  | [], b, c, _, _ => by cases c <;> simp [cmpCharList]
  | _ :: _, [], _, h1, _ => absurd rfl h1
  | _ :: _, _ :: _, [], _, h2 => absurd rfl h2
  | x :: xs, y :: ys, z :: zs, h1, h2 => by
      simp only [cmpCharList, then_ne_gt] at h1 h2 ⊢
      rcases h1 with h1 | ⟨h1e, h1r⟩
      · rcases h2 with h2 | ⟨h2e, h2r⟩
        · exact Or.inl (cmpChar_lt_trans h1 h2)
        · exact Or.inl (cmpChar_eq_iff.mp h2e ▸ h1)
      · rcases h2 with h2 | ⟨h2e, h2r⟩
        · exact Or.inl (cmpChar_eq_iff.mp h1e ▸ h2)
        · exact Or.inr ⟨by rw [cmpChar_eq_iff.mp h1e, h2e],
            cmpCharList_le_trans h1r h2r⟩

theorem cmpQ5_symm (x y : QItem) : (cmpQ5 x y).swap = cmpQ5 y x := by
  simp only [cmpQ5, Ordering.swap_then, cmpCharList_symm, cmpNat_symm]

theorem cmpQ4_symm (x y : QItem) : (cmpQ4 x y).swap = cmpQ4 y x := by
  simp only [cmpQ4, Ordering.swap_then, cmpCharList_symm, cmpQ5_symm]

theorem cmpQ3_symm (x y : QItem) : (cmpQ3 x y).swap = cmpQ3 y x := by
  simp only [cmpQ3, Ordering.swap_then, cmpCharList_symm, cmpQ4_symm]

theorem cmpQ2_symm (x y : QItem) : (cmpQ2 x y).swap = cmpQ2 y x := by
  simp only [cmpQ2, Ordering.swap_then, cmpCharList_symm, cmpQ3_symm]

theorem sortKeyCmp_symm (x y : QItem) :
    (sortKeyCmp x y).swap = sortKeyCmp y x := by
  simp only [sortKeyCmp, Ordering.swap_then, cmpCharList_symm, cmpQ2_symm]

theorem manifestLe_total (x y : QItem) : manifestLe x y ∨ manifestLe y x := by
  unfold manifestLe
  by_cases h : sortKeyCmp x y = .gt
  · right
    rw [← sortKeyCmp_symm, h]
    simp [Ordering.swap]
  · exact Or.inl h

theorem cmpNat_ne_gt {a b : Nat} : cmpNat a b ≠ .gt ↔ a ≤ b := by
  unfold cmpNat
  by_cases h1 : a < b <;> by_cases h2 : b < a <;> simp [h1, h2] <;> omega

theorem cmpNat_le_trans {a b c : Nat} (h1 : cmpNat a b ≠ .gt)
    (h2 : cmpNat b c ≠ .gt) : cmpNat a c ≠ .gt := by
  rw [cmpNat_ne_gt] at *
  omega

/-- Generic step for lexicographic chains `(c (f x) (f y)).then (rest x y)`:
transitivity of the non-`gt` relation, given a lawful component comparator
and transitivity of the rest of the chain. -/
theorem then_comp_le_trans {α : Type} {β : Type} (c : β → β → Ordering)
    (csymm : ∀ a b, (c a b).swap = c b a)
    (ceq : ∀ {a b}, c a b = .eq ↔ a = b)
    (ctrans : ∀ {a b d}, c a b ≠ .gt → c b d ≠ .gt → c a d ≠ .gt)
    (f : α → β) (rest : α → α → Ordering)
    (rtrans : ∀ {x y z}, rest x y ≠ .gt → rest y z ≠ .gt → rest x z ≠ .gt)
    {x y z : α}
    (h1 : (c (f x) (f y)).then (rest x y) ≠ .gt)
    (h2 : (c (f y) (f z)).then (rest y z) ≠ .gt) :
    (c (f x) (f z)).then (rest x z) ≠ .gt := by
  have clt : ∀ {a b d : β}, c a b = .lt → c b d = .lt → c a d = .lt := by
    intro a b d hab hbd
    have hne : c a d ≠ .gt :=
      ctrans (show c a b ≠ .gt by simp [hab]) (show c b d ≠ .gt by simp [hbd])
    rcases h : c a d with _ | _ | _
    · rfl
    · exfalso
      have had : a = d := ceq.mp h
      subst had
      have := csymm a b
      rw [hab] at this
      rw [← this] at hbd
      simp [Ordering.swap] at hbd
    · exact absurd h hne
  rw [then_ne_gt] at h1 h2 ⊢
  rcases h1 with h1 | ⟨h1e, h1r⟩
  · rcases h2 with h2 | ⟨h2e, h2r⟩
    · exact Or.inl (clt h1 h2)
    · exact Or.inl (ceq.mp h2e ▸ h1)
  · rcases h2 with h2 | ⟨h2e, h2r⟩
    · exact Or.inl (ceq.mp h1e ▸ h2)
    · exact Or.inr ⟨by rw [ceq.mp h1e, h2e], rtrans h1r h2r⟩

theorem cmpQ5_trans {x y z : QItem} (h1 : cmpQ5 x y ≠ .gt)
    (h2 : cmpQ5 y z ≠ .gt) : cmpQ5 x z ≠ .gt := by
  unfold cmpQ5 at h1 h2 ⊢
  exact then_comp_le_trans cmpNat cmpNat_symm cmpNat_eq_iff cmpNat_le_trans
    (fun it : QItem => it.qnum)
    (fun a b : QItem => cmpCharList (pdfName a.stem).toList (pdfName b.stem).toList)
    (fun ha hb => cmpCharList_le_trans ha hb) h1 h2

theorem cmpQ4_trans {x y z : QItem} (h1 : cmpQ4 x y ≠ .gt)
    (h2 : cmpQ4 y z ≠ .gt) : cmpQ4 x z ≠ .gt := by
  unfold cmpQ4 at h1 h2 ⊢
  exact then_comp_le_trans cmpCharList cmpCharList_symm cmpCharList_eq_iff
    cmpCharList_le_trans (fun it : QItem => it.key.comp2.toList) cmpQ5
    (fun ha hb => cmpQ5_trans ha hb) h1 h2

theorem cmpQ3_trans {x y z : QItem} (h1 : cmpQ3 x y ≠ .gt)
    (h2 : cmpQ3 y z ≠ .gt) : cmpQ3 x z ≠ .gt := by
  unfold cmpQ3 at h1 h2 ⊢
  exact then_comp_le_trans cmpCharList cmpCharList_symm cmpCharList_eq_iff
    cmpCharList_le_trans (fun it : QItem => it.key.yy.toList) cmpQ4
    (fun ha hb => cmpQ4_trans ha hb) h1 h2

theorem cmpQ2_trans {x y z : QItem} (h1 : cmpQ2 x y ≠ .gt)
    (h2 : cmpQ2 y z ≠ .gt) : cmpQ2 x z ≠ .gt := by
  unfold cmpQ2 at h1 h2 ⊢
  exact then_comp_le_trans cmpCharList cmpCharList_symm cmpCharList_eq_iff
    cmpCharList_le_trans (fun it : QItem => it.key.season.toList) cmpQ3
    (fun ha hb => cmpQ3_trans ha hb) h1 h2

theorem manifestLe_trans {x y z : QItem} (h1 : manifestLe x y)
    (h2 : manifestLe y z) : manifestLe x z := by
  unfold manifestLe sortKeyCmp at h1 h2 ⊢
  exact then_comp_le_trans cmpCharList cmpCharList_symm cmpCharList_eq_iff
    cmpCharList_le_trans (fun it : QItem => it.key.subject.toList) cmpQ2
    (fun ha hb => cmpQ2_trans ha hb) h1 h2

theorem manifestLe_antisymm {x y : QItem} (h1 : manifestLe x y)
    (h2 : manifestLe y x) : sortKeyCmp x y = .eq := by
  unfold manifestLe at h1 h2
  rcases h : sortKeyCmp x y with _ | _ | _
  · exfalso
    have := sortKeyCmp_symm x y
    rw [h] at this
    exact h2 (this ▸ rfl)
  · rfl
  · exact absurd h h1

theorem overlayFor_eq_spec (tw : String → ℚ) (whereStr : String)
    (margin fontSize : ℚ) (blankOther : Bool) (lbl : String) (pg : Page)
    (pIdx : Nat) :
    overlayFor tw whereStr margin fontSize blankOther lbl pg pIdx =
      overlaySpec tw whereStr margin fontSize blankOther lbl pg pIdx := by
  unfold overlayFor overlaySpec
  rcases pIdx with _ | k
  · by_cases htc : strUpper whereStr = "TC" <;>
      by_cases hbc : strUpper whereStr = "BC" <;>
        simp [htc, hbc]
  · by_cases hbo : blankOther <;>
      by_cases htc : strUpper whereStr = "TC" <;>
        by_cases hbc : strUpper whereStr = "BC" <;>
          simp [htc, hbc, hbo]

theorem ansMatchHere_iff {pat s : List Char} :
    ansMatchHere pat s = true ↔ ∃ post, s = pat ++ post ∧ AnsBoundary post := by
  unfold ansMatchHere
  constructor
  · intro h
    by_cases htake : s.take pat.length = pat
    · refine ⟨s.drop pat.length, ?_, ?_⟩
      · conv_lhs => rw [← List.take_append_drop pat.length s]
        rw [htake]
      · rw [if_pos htake] at h
        rcases hdrop : s.drop pat.length with _ | ⟨c, cs⟩
        · exact Or.inl rfl
        · rw [hdrop] at h
          simp only [decide_eq_true_eq] at h
          exact Or.inr ⟨cs, by rw [h]⟩
    · rw [if_neg htake] at h
      exact absurd h (by simp)
  · rintro ⟨post, rfl, hb⟩
    rw [if_pos (List.take_left pat post), List.drop_left]
    rcases hb with rfl | ⟨rest, rfl⟩
    · rfl
    · simp

theorem ansSearch_iff {pat s : List Char} :
    ansSearch pat s = true ↔
      ∃ pre post, s = pre ++ pat ++ post ∧ AnsBoundary post := by
  induction s with
  | nil =>
      rw [show ansSearch pat [] = ansMatchHere pat [] from rfl, ansMatchHere_iff]
      constructor
      · rintro ⟨post, h, hb⟩
        exact ⟨[], post, by simpa using h, hb⟩
      · rintro ⟨pre, post, h, hb⟩
        obtain ⟨hpp, hpost⟩ := List.append_eq_nil.mp h.symm
        obtain ⟨hpre, hpat0⟩ := List.append_eq_nil.mp hpp
        exact ⟨[], by simp [hpat0, hpost], Or.inl rfl⟩
  | cons c rest ih =>
      rw [show ansSearch pat (c :: rest) =
            (ansMatchHere pat (c :: rest) || ansSearch pat rest) from rfl,
          Bool.or_eq_true, ansMatchHere_iff, ih]
      constructor
      · rintro (⟨post, h, hb⟩ | ⟨pre, post, h, hb⟩)
        · exact ⟨[], post, by simpa using h, hb⟩
        · exact ⟨c :: pre, post, by simp [h], hb⟩
      · rintro ⟨pre, post, h, hb⟩
        rcases pre with _ | ⟨p, pre'⟩
        · exact Or.inl ⟨post, by simpa using h, hb⟩
        · refine Or.inr ⟨pre', post, ?_, hb⟩
          simpa using congrArg List.tail h

theorem ansSearch_eq_false_of_everyHitDigit {pat s : List Char}
    (hpat : pat ≠ []) (h : everyHitDigit pat s = true) :
    ansSearch pat s = false := by
  induction s with
  | nil =>
      show ansMatchHere pat [] = false
      unfold ansMatchHere
      simp only [List.take_nil]
      rw [if_neg (fun hcontra => hpat hcontra.symm)]
  | cons c rest ih =>
      unfold everyHitDigit at h
      rw [Bool.and_eq_true, Bool.or_eq_true] at h
      obtain ⟨h1, h2⟩ := h
      rw [show ansSearch pat (c :: rest) =
            (ansMatchHere pat (c :: rest) || ansSearch pat rest) from rfl,
          Bool.or_eq_false_iff]
      refine ⟨?_, ih h2⟩
      rcases h1 with h1 | h1
      · unfold ansMatchHere
        rw [if_neg]
        simpa [hitHere] using h1
      · rcases hdrop : (c :: rest).drop pat.length with _ | ⟨d, ds⟩
        · exfalso
          unfold followedByDigit at h1
          rw [hdrop] at h1
          exact absurd h1 (by simp)
        · have hd : d.isDigit = true := by
            unfold followedByDigit at h1
            rw [hdrop] at h1
            exact h1
          unfold ansMatchHere
          rw [hdrop]
          by_cases htake : (c :: rest).take pat.length = pat
          · rw [if_pos htake]
            show decide (d = '_') = false
            simp only [decide_eq_false_iff_not]
            intro hEq
            rw [hEq] at hd
            exact absurd hd (by decide)
          · rw [if_neg htake]

theorem ansTokenHere_sound {s : List Char} {n : Nat}
    (h : ansTokenHere s = some n) :
    ∃ c ds post, s = '_' :: c :: (ds ++ post) ∧ c.toLower = 'q' ∧
      ds ≠ [] ∧ (∀ d ∈ ds, d.isDigit) ∧ AnsBoundary post ∧
      digitsToNat ds = n := by
  rcases s with _ | ⟨u, s'⟩
  · exact absurd h (by simp [ansTokenHere])
  rcases s' with _ | ⟨c, rest⟩
  · exact absurd h (by simp [ansTokenHere])
  simp only [ansTokenHere] at h
  split_ifs at h with hcond
  obtain ⟨hu, hq, hds, hb⟩ := hcond
  simp only [Option.some.injEq] at h
  refine ⟨c, rest.takeWhile Char.isDigit, rest.dropWhile Char.isDigit,
    ?_, hq, hds, ?_, ?_, h⟩
  · rw [hu, List.takeWhile_append_dropWhile]
  · intro d hd
    exact List.mem_takeWhile_imp hd
  · rcases hb with hb | hb
    · exact Or.inl hb
    · rcases hpost : rest.dropWhile Char.isDigit with _ | ⟨p0, pr⟩
      · exact Or.inl rfl
      · rw [hpost] at hb
        simp only [List.head?_cons, Option.some.injEq] at hb
        exact Or.inr ⟨pr, by rw [hb]⟩

theorem ansTokenSearch_sound {s : List Char} {n : Nat}
    (h : ansTokenSearch s = some n) :
    ∃ pre c ds post, s = pre ++ '_' :: c :: (ds ++ post) ∧ c.toLower = 'q' ∧
      ds ≠ [] ∧ (∀ d ∈ ds, d.isDigit) ∧ AnsBoundary post ∧
      digitsToNat ds = n := by
  induction s with
  | nil => exact absurd h (by simp [ansTokenSearch])
  | cons c0 rest ih =>
      rw [show ansTokenSearch (c0 :: rest) =
            (match ansTokenHere (c0 :: rest) with
             | some r => some r
             | none => ansTokenSearch rest) from rfl] at h
      rcases hh : ansTokenHere (c0 :: rest) with _ | q
      · rw [hh] at h
        obtain ⟨pre, c, ds, post, heq, hq, hds, hdig, hb, hval⟩ := ih h
        exact ⟨c0 :: pre, c, ds, post, by simp [heq], hq, hds, hdig, hb, hval⟩
      · rw [hh] at h
        simp only [Option.some.injEq] at h
        subst h
        obtain ⟨c, ds, post, heq, hq, hds, hdig, hb, hval⟩ :=
          ansTokenHere_sound hh
        exact ⟨[], c, ds, post, by simp [heq], hq, hds, hdig, hb, hval⟩

/-- C1 counterexample: the `quiz_answers.py` matcher violates the claimed
characterization.  `"_Q10_Q1"` contains `_Q1` at a token boundary (the
claim demands a match for `n = 1`) yet the matcher answers `false`, because
it only reads the leftmost `_Q<digits>` token (`10`); and `"_Q00"`, which
is `_Q` + the digits of `0` + one extra digit (the claim demands no match
for `n = 0`), is matched, because the captured digits `00` convert to the
number `0`. -/
theorem C1_counterexample :
    (findAnswerFileMatch "_Q10_Q1" 1 = false ∧ ContainsAnsToken "_Q10_Q1" 1) ∧
    (findAnswerFileMatch "_Q00" 0 = true ∧
      "_Q00".toList = "_Q".toList ++ Nat.toDigits 10 0 ++ ['0']) :=
  ⟨⟨by decide, ⟨['_', 'q', '1', '0'], [], by decide, Or.inl rfl⟩⟩,
   by decide, by decide⟩

/-- C1 (amended): the answer binder's matcher (`_attach_answers`,
`parseAnswerFilename`) succeeds on a stem iff the stem contains `_Q` + the
digits of `n` followed by `'_'` or end-of-string (case-insensitively), and
never matches when every occurrence of that pattern is followed by a further
digit (so `_Q10` is never bound when looking for `_Q1`).  The
`quiz_answers.py` matcher (`find_answer_pdfs`) is only sound up to numeric
value: a successful match exhibits a boundary-delimited `_Q<digits>` token
whose decimal value is `n`, but the converse fails (it reads only the
leftmost token) and the digits may carry leading zeros. -/
theorem C1_answer_filename_matching :
    ∀ (stem : String) (n : Nat),
      (parseAnswerFilename stem n = true ↔ ContainsAnsToken stem n) ∧
      (everyHitDigit (ansPat n) (stem.toList.map Char.toLower) = true →
        parseAnswerFilename stem n = false) ∧
      (findAnswerFileMatch stem n = true →
        ∃ pre c ds post, stem.toList = pre ++ '_' :: c :: (ds ++ post) ∧
          c.toLower = 'q' ∧ ds ≠ [] ∧ (∀ d ∈ ds, d.isDigit) ∧
          AnsBoundary post ∧ digitsToNat ds = n) := by
  intro stem n
  refine ⟨ansSearch_iff, ?_, ?_⟩
  · intro h
    exact ansSearch_eq_false_of_everyHitDigit (by simp [ansPat]) h
  · intro h
    have hsearch : ansTokenSearch stem.toList = some n := by
      unfold findAnswerFileMatch at h
      rcases hh : ansTokenSearch stem.toList with _ | q
      · rw [hh] at h
        exact absurd h (by simp)
      · rw [hh] at h
        simp only [decide_eq_true_eq] at h
        rw [h]
    exact ansTokenSearch_sound hsearch

theorem C1_answer_filename_matching_witness :
    parseAnswerFilename "B_Q10_ANS" 1 = false ∧
    ContainsAnsToken "B_Q1_ANS" 1 ∧
    (∃ pre c ds post, "C_Q2_ANS".toList = pre ++ '_' :: c :: (ds ++ post) ∧
      c.toLower = 'q' ∧ ds ≠ [] ∧ (∀ d ∈ ds, d.isDigit) ∧
      AnsBoundary post ∧ digitsToNat ds = 2) :=
  ⟨(C1_answer_filename_matching "B_Q10_ANS" 1).2.1 (by decide),
   (C1_answer_filename_matching "B_Q1_ANS" 1).1.mp (by decide),
   (C1_answer_filename_matching "C_Q2_ANS" 2).2.2 (by decide)⟩

theorem takeWhile_digits_append (ds post : List Char)
    (h : ∀ d ∈ ds, Char.isDigit d) :
    (ds ++ '_' :: post).takeWhile Char.isDigit = ds ∧
    (ds ++ '_' :: post).dropWhile Char.isDigit = '_' :: post := by
  have hu : Char.isDigit '_' = false := by decide
  induction ds with
  | nil => simp [List.takeWhile_cons, List.dropWhile_cons, hu]
  | cons d ds ih =>
      have hd : Char.isDigit d := h d (by simp)
      have hrest : ∀ x ∈ ds, Char.isDigit x := fun x hx => h x (by simp [hx])
      obtain ⟨ih1, ih2⟩ := ih hrest
      constructor
      · simpa [List.takeWhile_cons, hd] using ih1
      · simpa [List.dropWhile_cons, hd] using ih2

theorem qMarkerHere_sound {s : List Char} {ds after : List Char}
    (h : qMarkerHere s = some (ds, after)) :
    ∃ c, s = '_' :: c :: (ds ++ '_' :: after) ∧ c.toLower = 'q' ∧
      ds ≠ [] ∧ ∀ d ∈ ds, d.isDigit := by
  rcases s with _ | ⟨u, s'⟩
  · exact absurd h (by simp [qMarkerHere])
  rcases s' with _ | ⟨c, rest⟩
  · exact absurd h (by simp [qMarkerHere])
  simp only [qMarkerHere] at h
  split_ifs at h with hcond
  obtain ⟨hu, hq, hds, hb⟩ := hcond
  simp only [Option.some.injEq, Prod.mk.injEq] at h
  obtain ⟨hds_eq, hafter⟩ := h
  rcases hpost : rest.dropWhile Char.isDigit with _ | ⟨p0, pr⟩
  · rw [hpost] at hb
    exact absurd hb (by simp)
  · rw [hpost] at hb hafter
    simp only [List.head?_cons, Option.some.injEq] at hb
    simp only [List.tail_cons] at hafter
    refine ⟨c, ?_, hq, hds_eq ▸ hds, ?_⟩
    · rw [hu, ← hds_eq, ← hafter, ← hb, ← hpost,
        List.takeWhile_append_dropWhile]
    · intro d hd
      rw [← hds_eq] at hd
      exact List.mem_takeWhile_imp hd

theorem qMarkerHere_isSome_of {c : Char} {ds : List Char} (post : List Char)
    (hq : c.toLower = 'q') (hds : ds ≠ []) (hdig : ∀ d ∈ ds, d.isDigit) :
    (qMarkerHere ('_' :: c :: (ds ++ '_' :: post))).isSome := by
  obtain ⟨htake, hdrop⟩ := takeWhile_digits_append ds post hdig
  simp [qMarkerHere, htake, hdrop, hq, hds]

theorem qMarkerSearch_isSome_iff {s : List Char} :
    (qMarkerSearch s).isSome ↔ ContainsQMarker s := by
  induction s with
  | nil =>
      simp only [qMarkerSearch, Option.isSome_none, Bool.false_eq_true,
        false_iff]
      rintro ⟨pre, c, ds, post, h, -, -, -⟩
      exact absurd h (by simp)
  | cons c0 rest ih =>
      rw [show qMarkerSearch (c0 :: rest) =
            (match qMarkerHere (c0 :: rest) with
             | some r => some r
             | none => qMarkerSearch rest) from rfl]
      constructor
      · intro h
        rcases hh : qMarkerHere (c0 :: rest) with _ | ⟨ds, after⟩
        · rw [hh] at h
          obtain ⟨pre, c, ds, post, heq, hq, hds, hdig⟩ := ih.mp h
          exact ⟨c0 :: pre, c, ds, post, by simp [heq], hq, hds, hdig⟩
        · obtain ⟨c, heq, hq, hds, hdig⟩ := qMarkerHere_sound hh
          exact ⟨[], c, ds, after, by simp [heq], hq, hds, hdig⟩
      · rintro ⟨pre, c, ds, post, heq, hq, hds, hdig⟩
        rcases pre with _ | ⟨p0, pre'⟩
        · simp only [List.nil_append] at heq
          have hsome := qMarkerHere_isSome_of post hq hds hdig
          rw [← heq] at hsome
          rcases hh : qMarkerHere (c0 :: rest) with _ | r
          · rw [hh] at hsome
            exact absurd hsome (by simp)
          · rfl
        · have heq2 : rest = pre' ++ '_' :: c :: (ds ++ '_' :: post) := by
            simpa using congrArg List.tail heq
          have hsub : (qMarkerSearch rest).isSome :=
            ih.mpr ⟨pre', c, ds, post, heq2, hq, hds, hdig⟩
          rcases hh : qMarkerHere (c0 :: rest) with _ | r
          · exact hsub
          · rfl

/-- Membership in the accumulated token union. -/
theorem tokenUnion_mem_aux {tok : List Char} :
    ∀ (segs : List (List Char)) (init : Finset (List Char)),
      tok ∈ segs.foldl
          (fun acc seg => acc ∪ (normalize_tokens seg).toFinset) init ↔
        tok ∈ init ∨ ∃ seg ∈ segs, tok ∈ normalize_tokens seg := by
  intro segs
  induction segs with
  | nil => simp
  | cons s rest ih =>
      intro init
      rw [List.foldl_cons, ih]
      simp only [Finset.mem_union, List.mem_toFinset, List.mem_cons]
      constructor
      · rintro ((h | h) | ⟨seg, hseg, htok⟩)
        · exact Or.inl h
        · exact Or.inr ⟨s, Or.inl rfl, h⟩
        · exact Or.inr ⟨seg, Or.inr hseg, htok⟩
      · rintro (h | ⟨seg, rfl | hseg, htok⟩)
        · exact Or.inl (Or.inl h)
        · exact Or.inl (Or.inr htok)
        · exact Or.inr ⟨seg, hseg, htok⟩

theorem tokenUnion_mem {segs : List (List Char)} {tok : List Char} :
    tok ∈ tokenUnion segs ↔ ∃ seg ∈ segs, tok ∈ normalize_tokens seg := by
  rw [tokenUnion, tokenUnion_mem_aux]
  simp

/-- C4: a stem without the `_Q<digits>_` marker parses to no-match, and for
a stem with the marker the topic-token set contains exactly the tokens of
the underscore-split segments of the text after the (leftmost) marker. -/
theorem C4_question_filename_parsing :
    ∀ stem : String,
      (parseQuestionFilename stem = none ↔ ¬ ContainsQMarker stem.toList) ∧
      (∀ ds tail, qMarkerSearch stem.toList = some (ds, tail) →
        ∀ tok, tok ∈ filename_topic_tokens stem ↔
          ∃ seg ∈ splitUnderscore tail, tok ∈ normalize_tokens seg) := by
  intro stem
  constructor
  · rw [← qMarkerSearch_isSome_iff]
    unfold parseQuestionFilename
    rcases hh : qMarkerSearch stem.toList with _ | ⟨ds, tail⟩
    · simp
    · simp
  · intro ds tail hsearch tok
    unfold filename_topic_tokens
    rw [hsearch]
    exact tokenUnion_mem

theorem C4_question_filename_parsing_witness :
    ¬ ContainsQMarker "paper".toList ∧
    ['g', 'e', 'o', 'm', 'e', 't', 'r', 'y'] ∈
      filename_topic_tokens "A_Q8_Coordinate_geometry" :=
  ⟨(C4_question_filename_parsing "paper").1.mp (by decide),
   ((C4_question_filename_parsing "A_Q8_Coordinate_geometry").2
      ['8'] "Coordinate_geometry".toList (by decide)
      ['g', 'e', 'o', 'm', 'e', 't', 'r', 'y']).mpr
    ⟨"geometry".toList, by decide, by decide⟩⟩

/-! ## C2: manifest ordering -/

/-- C2: the resolver's manifest is the stable sort of the discovered
records by the key `(subject, season, yearSuffix, component,
questionNumber)` with the source filename as final tie-break; the ordering
relation is total and transitive; the sort only permutes the discovered
records; and re-sorting a produced manifest leaves it unchanged, so
resolving the same criteria over the same scanned corpus twice yields the
identical ordering. -/
theorem C2_manifest_ordering :
    ∀ (corpus : List Folder) (years seasons : List String) (compNo : String)
      (topics : List String),
      List.Sorted manifestLe
        (build_manifest corpus years seasons compNo topics) ∧
      (build_manifest corpus years seasons compNo topics).Perm
        (build_manifest_unsorted corpus years seasons compNo topics) ∧
      (∀ a b : QItem, manifestLe a b ∨ manifestLe b a) ∧
      (∀ a b c : QItem, manifestLe a b → manifestLe b c → manifestLe a c) ∧
      (∀ a b : QItem, manifestLe a b → manifestLe b a →
        sortKeyCmp a b = .eq) ∧
      List.insertionSort manifestLe
          (build_manifest corpus years seasons compNo topics) =
        build_manifest corpus years seasons compNo topics := by
  intro corpus years seasons compNo topics
  have hsorted :=
    @List.sorted_insertionSort QItem manifestLe inferInstance
      ⟨manifestLe_total⟩ ⟨fun _ _ _ => manifestLe_trans⟩
      (build_manifest_unsorted corpus years seasons compNo topics)
  refine ⟨hsorted,
    List.perm_insertionSort manifestLe _,
    manifestLe_total,
    fun a b c hab hbc => manifestLe_trans hab hbc,
    fun a b hab hba => manifestLe_antisymm hab hba,
    ?_⟩
  exact hsorted.insertionSort_eq

example :
    build_manifest
      [⟨"9709_w24_qp_11", ["A_Q2_Series", "A_Q1_Quadratics"]⟩]
      ["2024"] ["Winter"] "1" ["Quadratics", "Series"] =
    [⟨⟨"9709", "w", "24", "11"⟩, 1, "9709_w24_qp_11", "A_Q1_Quadratics", none⟩,
     ⟨⟨"9709", "w", "24", "11"⟩, 2, "9709_w24_qp_11", "A_Q2_Series", none⟩] := by
  decide

/-! ## C5: empty topic selections and empty topic-token sets -/

/-- C5 counterexample: with an empty topic selection the assembly resolver
(`_build_manifest`) matches every marker file, and a file whose own
topic-token set is empty (stem `"A_Q1_"`) does appear in the Manifest —
contradicting "files whose topic-token set is empty are skipped and never
appear in the Manifest". -/
theorem C5_counterexample :
    selection_topics_tokens [] = ∅ ∧
    build_manifest [⟨"9709_w24_qp_11", ["A_Q1_"]⟩] ["2024"] ["Winter"] "1" []
      = [⟨⟨"9709", "w", "24", "11"⟩, 1, "9709_w24_qp_11", "A_Q1_", none⟩] ∧
    filename_topic_tokens "A_Q1_" = ∅ := by
  refine ⟨by decide, by decide, by decide⟩

theorem collectFileStep_empty (fname : String)
    (acc : List (String × String)) (stem : String) :
    collectFileStep ∅ fname acc stem = acc := by
  unfold collectFileStep
  have h : (∅ : Finset (List Char)) ∩ filename_topic_tokens stem = ∅ :=
    Finset.empty_inter _
  simp [h]

theorem collect_foldl_empty (fname : String) :
    ∀ (files : List String) (acc : List (String × String)),
      files.foldl (collectFileStep ∅ fname) acc = acc := by
  intro files
  induction files with
  | nil => intro acc; rfl
  | cons s rest ih =>
      intro acc
      rw [List.foldl_cons, collectFileStep_empty, ih]

theorem collectFileStep_pred (sel : Finset (List Char)) (fname : String)
    (acc : List (String × String)) (stem : String)
    (hacc : ∀ p ∈ acc, filename_topic_tokens p.2 ≠ ∅) :
    ∀ p ∈ collectFileStep sel fname acc stem,
      filename_topic_tokens p.2 ≠ ∅ := by
  by_cases h1 : (qMarkerSearch stem.toList).isSome
  · by_cases h2 : filename_topic_tokens stem = ∅
    · simp only [collectFileStep, if_pos h1, if_pos h2]
      exact hacc
    · by_cases h3 : sel ∩ filename_topic_tokens stem ≠ ∅
      · by_cases h4 : (fname, stem) ∈ acc
        · simp only [collectFileStep, if_pos h1, if_neg h2, if_pos h3,
            if_pos h4]
          exact hacc
        · simp only [collectFileStep, if_pos h1, if_neg h2, if_pos h3,
            if_neg h4]
          intro p hp
          rcases List.mem_append.mp hp with hp | hp
          · exact hacc p hp
          · simp only [List.mem_singleton] at hp
            rw [hp]
            exact h2
      · simp only [collectFileStep, if_pos h1, if_neg h2, if_neg h3]
        exact hacc
  · simp only [collectFileStep, if_neg h1]
    exact hacc

theorem collect_files_foldl_pred (sel : Finset (List Char)) (fname : String) :
    ∀ (files : List String) (acc : List (String × String)),
      (∀ p ∈ acc, filename_topic_tokens p.2 ≠ ∅) →
      ∀ p ∈ files.foldl (collectFileStep sel fname) acc,
        filename_topic_tokens p.2 ≠ ∅ := by
  intro files
  induction files with
  | nil => intro acc hacc; exact hacc
  | cons s rest ih =>
      intro acc hacc
      rw [List.foldl_cons]
      exact ih _ (collectFileStep_pred sel fname acc s hacc)

theorem collect_folders_foldl_pred (sel : Finset (List Char)) :
    ∀ (folders : List Folder) (acc : List (String × String)),
      (∀ p ∈ acc, filename_topic_tokens p.2 ≠ ∅) →
      ∀ p ∈ folders.foldl
          (fun acc f => f.files.foldl (collectFileStep sel f.name) acc) acc,
        filename_topic_tokens p.2 ≠ ∅ := by
  intro folders
  induction folders with
  | nil => intro acc hacc; exact hacc
  | cons f rest ih =>
      intro acc hacc
      rw [List.foldl_cons]
      exact ih _ (collect_files_foldl_pred sel f.name f.files acc hacc)

theorem manifestFileStep_pred (sel : Finset (List Char)) (key : QKey)
    (fname : String) (acc : List QItem × List (String × String))
    (stem : String) (hsel : sel ≠ ∅)
    (hacc : ∀ it ∈ acc.1, filename_topic_tokens it.stem ≠ ∅) :
    ∀ it ∈ (manifestFileStep sel key fname acc stem).1,
      filename_topic_tokens it.stem ≠ ∅ := by
  rcases acc with ⟨manifest, seen⟩
  by_cases h1 : (fname, stem) ∈ seen
  · simp only [manifestFileStep, if_pos h1]
    exact hacc
  · rcases hq : qMarkerSearch stem.toList with _ | ⟨ds, tail⟩
    · simp only [manifestFileStep, if_neg h1, hq]
      exact hacc
    · by_cases h3 : sel ∩ filename_topic_tokens stem ≠ ∅
      · simp only [manifestFileStep, if_neg h1, hq, if_neg hsel, if_pos h3]
        intro it hit
        rcases List.mem_append.mp hit with hit | hit
        · exact hacc it hit
        · simp only [List.mem_singleton] at hit
          rw [hit]
          intro hcontra
          rw [hcontra] at h3
          exact h3 (Finset.inter_empty sel)
      · simp only [manifestFileStep, if_neg h1, hq, if_neg hsel, if_neg h3]
        exact hacc

theorem manifest_files_foldl_pred (sel : Finset (List Char)) (key : QKey)
    (fname : String) (hsel : sel ≠ ∅) :
    ∀ (files : List String) (acc : List QItem × List (String × String)),
      (∀ it ∈ acc.1, filename_topic_tokens it.stem ≠ ∅) →
      ∀ it ∈ (files.foldl (manifestFileStep sel key fname) acc).1,
        filename_topic_tokens it.stem ≠ ∅ := by
  intro files
  induction files with
  | nil => intro acc hacc; exact hacc
  | cons s rest ih =>
      intro acc hacc
      rw [List.foldl_cons]
      exact ih _ (manifestFileStep_pred sel key fname acc s hsel hacc)

theorem manifest_folders_foldl_pred (sel : Finset (List Char))
    (hsel : sel ≠ ∅) :
    ∀ (fks : List (Folder × QKey)) (acc : List QItem × List (String × String)),
      (∀ it ∈ acc.1, filename_topic_tokens it.stem ≠ ∅) →
      ∀ it ∈ (fks.foldl
          (fun acc fk =>
            fk.1.files.foldl (manifestFileStep sel fk.2 fk.1.name) acc)
          acc).1,
        filename_topic_tokens it.stem ≠ ∅ := by
  intro fks
  induction fks with
  | nil => intro acc hacc; exact hacc
  | cons fk rest ih =>
      intro acc hacc
      rw [List.foldl_cons]
      exact ih _
        (manifest_files_foldl_pred sel fk.2 fk.1.name hsel fk.1.files acc hacc)

/-- C5 (amended): when the selected-topic token set is nonempty, a file
with an empty topic-token set never appears in the assembly resolver's
Manifest; the standalone `quiz.py` resolver matches nothing at all when
the selection tokenizes to the empty set and never includes a file with an
empty topic-token set; but the assembly resolver treats an empty selection
token set as match-all and then admits marker files regardless of their
topic tokens (counterexample above). -/
theorem C5_empty_topics :
    ∀ (corpus : List Folder) (years seasons : List String) (compNo : String)
      (topics : List String) (folders : List Folder)
      (sel : Finset (List Char)),
      (selection_topics_tokens topics ≠ ∅ →
        ∀ it ∈ build_manifest corpus years seasons compNo topics,
          filename_topic_tokens it.stem ≠ ∅) ∧
      collect_matching_pdfs folders ∅ = [] ∧
      (∀ p ∈ collect_matching_pdfs folders sel,
        filename_topic_tokens p.2 ≠ ∅) := by
  intro corpus years seasons compNo topics folders sel
  refine ⟨?_, ?_, ?_⟩
  · intro hsel it hit
    have hmem : it ∈ build_manifest_unsorted corpus years seasons compNo topics :=
      ((List.perm_insertionSort manifestLe _).mem_iff).mp hit
    exact manifest_folders_foldl_pred _ hsel _ ([], []) (by simp) it hmem
  · unfold collect_matching_pdfs
    induction folders with
    | nil => rfl
    | cons f rest ih =>
        rw [List.foldl_cons, collect_foldl_empty]
        exact ih
  · exact collect_folders_foldl_pred sel folders [] (by simp)

theorem C5_empty_topics_witness :
    (∀ it ∈ build_manifest [⟨"9709_w24_qp_11", ["A_Q1_Quadratics"]⟩]
        ["2024"] ["Winter"] "1" ["Quadratics"],
      filename_topic_tokens it.stem ≠ ∅) ∧
    collect_matching_pdfs [⟨"9709_w24_qp_11", ["A_Q1_"]⟩] ∅ = [] ∧
    filename_topic_tokens "A_Q8_Series" ≠ ∅ :=
  ⟨(C5_empty_topics [⟨"9709_w24_qp_11", ["A_Q1_Quadratics"]⟩]
      ["2024"] ["Winter"] "1" ["Quadratics"] [] ∅).1 (by decide),
   (C5_empty_topics [] [] [] "" [] [⟨"9709_w24_qp_11", ["A_Q1_"]⟩] ∅).2.1,
   (C5_empty_topics [] [] [] "" []
      [⟨"9709_w24_qp_11", ["A_Q8_Series"]⟩]
      {['s', 'e', 'r', 'i', 'e', 's']}).2.2
     ("9709_w24_qp_11", "A_Q8_Series") (by decide)⟩

/-! ## C7 and C10: answer binding -/

theorem bindOne_ms_spec (idx : QKey → Option (List String)) (it : QItem)
    (h : it.ms = none) :
    (bindOne idx it).1.ms.isSome = !(bindOne idx it).2 := by
  unfold bindOne
  split
  · simp [h]
  · split
    · simp
    · simp [h]

theorem bindOne_frame (idx : QKey → Option (List String)) (it : QItem) :
    (bindOne idx it).1.key = it.key ∧ (bindOne idx it).1.qnum = it.qnum ∧
    (bindOne idx it).1.folder = it.folder ∧
    (bindOne idx it).1.stem = it.stem := by
  unfold bindOne
  split
  · exact ⟨rfl, rfl, rfl, rfl⟩
  · split
    · exact ⟨rfl, rfl, rfl, rfl⟩
    · exact ⟨rfl, rfl, rfl, rfl⟩

/-- C7: on a manifest whose records carry no pre-bound answer (as the
resolver produces them), binding sends every record either to `missing` or
to a bound answer path — never both, never neither — so the missing count
plus the bound-answer count equals the manifest length. -/
theorem C7_missing_accounting :
    ∀ (idx : QKey → Option (List String)) (manifest : List QItem),
      (∀ it ∈ manifest, it.ms = none) →
      ((attach_answers idx manifest).2.length +
        ((attach_answers idx manifest).1.filter
          (fun it => it.ms.isSome)).length = manifest.length) ∧
      ∀ it ∈ manifest,
        (bindOne idx it).1.ms.isSome = !(bindOne idx it).2 := by
  intro idx manifest h
  have hpt : ∀ it ∈ manifest,
      (bindOne idx it).1.ms.isSome = !(bindOne idx it).2 :=
    fun it hm => bindOne_ms_spec idx it (h it hm)
  refine ⟨?_, hpt⟩
  have h1 : (attach_answers idx manifest).2.length =
      manifest.countP (fun it => (bindOne idx it).2) := by
    simp [attach_answers, List.countP_eq_length_filter]
  have h2 : ((attach_answers idx manifest).1.filter
      (fun it => it.ms.isSome)).length =
      manifest.countP (fun it => (bindOne idx it).1.ms.isSome) := by
    rw [show (attach_answers idx manifest).1 =
          manifest.map (fun it => (bindOne idx it).1) from rfl,
        List.filter_map, List.length_map, List.countP_eq_length_filter]
    rfl
  rw [h1, h2]
  have h3 : manifest.countP (fun it => (bindOne idx it).1.ms.isSome) =
      manifest.countP (fun it => !(bindOne idx it).2) :=
    (List.Perm.refl manifest).countP_congr hpt
  rw [h3]
  have h4 := (List.length_eq_countP_add_countP
    (fun it => (bindOne idx it).2) manifest).symm
  have h5 : manifest.countP
        (fun a => decide ¬((bindOne idx a).2 = true)) =
      manifest.countP (fun it => !(bindOne idx it).2) :=
    (List.Perm.refl manifest).countP_congr (by
      intro a ha
      by_cases hb : (bindOne idx a).2 <;> simp [hb])
  rw [← h5]
  exact h4

theorem C7_missing_accounting_witness :
    ((attach_answers
        (fun k => if k = ⟨"9709", "w", "24", "11"⟩
          then some ["B_Q1_ANS"] else none)
        [⟨⟨"9709", "w", "24", "11"⟩, 1, "9709_w24_qp_11", "A_Q1_Algebra", none⟩,
         ⟨⟨"9709", "w", "24", "12"⟩, 2, "9709_w24_qp_12", "A_Q2_Geometry", none⟩]).2.length +
      ((attach_answers
        (fun k => if k = ⟨"9709", "w", "24", "11"⟩
          then some ["B_Q1_ANS"] else none)
        [⟨⟨"9709", "w", "24", "11"⟩, 1, "9709_w24_qp_11", "A_Q1_Algebra", none⟩,
         ⟨⟨"9709", "w", "24", "12"⟩, 2, "9709_w24_qp_12", "A_Q2_Geometry", none⟩]).1.filter
        (fun it => it.ms.isSome)).length = 2) ∧
    ∀ it ∈ [⟨⟨"9709", "w", "24", "11"⟩, 1, "9709_w24_qp_11", "A_Q1_Algebra", none⟩,
            (⟨⟨"9709", "w", "24", "12"⟩, 2, "9709_w24_qp_12", "A_Q2_Geometry",
              none⟩ : QItem)],
      (bindOne (fun k => if k = ⟨"9709", "w", "24", "11"⟩
          then some ["B_Q1_ANS"] else none) it).1.ms.isSome =
        !(bindOne (fun k => if k = ⟨"9709", "w", "24", "11"⟩
          then some ["B_Q1_ANS"] else none) it).2 :=
  C7_missing_accounting
    (fun k => if k = ⟨"9709", "w", "24", "11"⟩ then some ["B_Q1_ANS"] else none)
    [⟨⟨"9709", "w", "24", "11"⟩, 1, "9709_w24_qp_11", "A_Q1_Algebra", none⟩,
     ⟨⟨"9709", "w", "24", "12"⟩, 2, "9709_w24_qp_12", "A_Q2_Geometry", none⟩]
    (by decide)

/-- C10: answer binding returns a manifest of the same length and order in
which every record agrees with its input record on the key, the question
number and the question source path; only the answer path is touched. -/
theorem C10_binding_frame :
    ∀ (idx : QKey → Option (List String)) (manifest : List QItem),
      (attach_answers idx manifest).1.length = manifest.length ∧
      (attach_answers idx manifest).1.map
          (fun it => (it.key, it.qnum, it.folder, it.stem)) =
        manifest.map (fun it => (it.key, it.qnum, it.folder, it.stem)) := by
  intro idx manifest
  constructor
  · simp [attach_answers]
  · rw [show (attach_answers idx manifest).1 =
        manifest.map (fun it => (bindOne idx it).1) from rfl,
      List.map_map]
    apply List.map_congr_left
    intro it hit
    obtain ⟨h1, h2, h3, h4⟩ := bindOne_frame idx it
    simp [Function.comp, h1, h2, h3, h4]

/-! ## C6: seeded shuffle and answer-order consistency -/

theorem cons_set_perm {α : Type} :
    ∀ (t : List α) (k : Nat) (x y : α), t.get? k = some y →
      (y :: t.set k x).Perm (x :: t) := by
  intro t
  induction t with
  | nil => intro k x y h; exact absurd h (by simp)
  | cons b t' ih =>
      intro k x y h
      rcases k with _ | k
      · simp only [List.get?_cons_zero, Option.some.injEq] at h
        rw [← h, List.set_cons_zero]
        exact List.Perm.swap _ _ _
      · simp only [List.get?_cons_succ] at h
        rw [List.set_cons_succ]
        have s1 : (y :: b :: t'.set k x).Perm (b :: y :: t'.set k x) :=
          List.Perm.swap b y _
        have s2 : (b :: y :: t'.set k x).Perm (b :: x :: t') :=
          List.Perm.cons b (ih k x y h)
        have s3 : (b :: x :: t').Perm (x :: b :: t') := List.Perm.swap x b t'
        exact (s1.trans s2).trans s3

theorem set_set_perm {α : Type} :
    ∀ (l : List α) (i j : Nat) (x y : α), l.get? i = some x →
      l.get? j = some y → ((l.set i y).set j x).Perm l := by
  intro l
  induction l with
  | nil => intro i j x y hi hj; exact absurd hi (by simp)
  | cons a t ih =>
      intro i j x y hi hj
      rcases i with _ | m
      · simp only [List.get?_cons_zero, Option.some.injEq] at hi
        rcases j with _ | k
        · simp only [List.get?_cons_zero, Option.some.injEq] at hj
          rw [List.set_cons_zero, List.set_cons_zero, hi]
        · simp only [List.get?_cons_succ] at hj
          rw [List.set_cons_zero, List.set_cons_succ, hi]
          exact cons_set_perm t k x y hj
      · simp only [List.get?_cons_succ] at hi
        rcases j with _ | k
        · simp only [List.get?_cons_zero, Option.some.injEq] at hj
          rw [List.set_cons_succ, List.set_cons_zero, hj]
          exact cons_set_perm t m y x hi
        · simp only [List.get?_cons_succ] at hj
          rw [List.set_cons_succ, List.set_cons_succ]
          exact List.Perm.cons a (ih m k x y hi hj)

theorem listSwap_perm (l : List Nat) (i j : Nat) : (listSwap l i j).Perm l := by
  unfold listSwap
  rcases hi : l.get? i with _ | x
  · exact List.Perm.refl l
  · rcases hj : l.get? j with _ | y
    · exact List.Perm.refl l
    · exact set_set_perm l i j x y hi hj

theorem pyShuffleAux_perm (rb : Nat → Nat → Nat) :
    ∀ (k : Nat) (l : List Nat), (pyShuffleAux rb k l).Perm l := by
  intro k
  induction k with
  | zero => intro l; exact List.Perm.refl l
  | succ i ih =>
      intro l
      exact (ih _).trans (listSwap_perm l (i + 1) _)

theorem pyShuffle_perm (rb : Nat → Nat → Nat) (l : List Nat) :
    (pyShuffle rb l).Perm l :=
  pyShuffleAux_perm rb (l.length - 1) l

theorem range_filterMap_get {α : Type} :
    ∀ l : List α, (List.range l.length).filterMap (fun i => l.get? i) = l := by
  intro l
  induction l with
  | nil => rfl
  | cons a t ih =>
      rw [show (a :: t).length = t.length + 1 from rfl,
        List.range_succ_eq_map, List.filterMap_cons]
      simp only [List.get?_cons_zero, List.filterMap_map]
      rw [show ((fun i => (a :: t).get? i) ∘ Nat.succ) =
            (fun i => t.get? i) from rfl, ih]

theorem applyOrder_perm {manifest : List QItem} {order : List Nat}
    (h : order.Perm (List.range manifest.length)) :
    (applyOrder manifest order).Perm manifest := by
  unfold applyOrder
  calc (order.filterMap (fun i => manifest.get? i)).Perm
        ((List.range manifest.length).filterMap (fun i => manifest.get? i)) :=
        h.filterMap _
    _ = manifest := range_filterMap_get manifest

theorem filterMap_ms_eq_filter {l : List QItem} :
    l.filterMap (fun it => it.ms) =
      (l.filter (fun it => it.ms.isSome)).filterMap (fun it => it.ms) := by
  induction l with
  | nil => rfl
  | cons a t ih =>
      rcases h : a.ms with _ | m
      · rw [List.filterMap_cons, h, List.filter_cons]
        simp [h, ih]
      · rw [List.filterMap_cons, h, List.filter_cons]
        simp only [h, Option.isSome_some, if_pos]
        rw [List.filterMap_cons, h, ih]

/-- C6: the shuffled order is a function of the drawn-value stream alone
(same seed ⇒ same stream ⇒ same permutation); the shuffle of the index
range is a permutation of it, so the shuffled question list is a
permutation of the manifest; and the answer document list is exactly the
answered subsequence of the shuffled record sequence, so surviving
question/answer pairs keep their relative order. -/
theorem C6_shuffle_determinism_and_pairing :
    ∀ (rb rb2 : Nat → Nat → Nat) (manifest : List QItem),
      ((∀ i b, rb i b = rb2 i b) →
        pyShuffle rb (List.range manifest.length) =
          pyShuffle rb2 (List.range manifest.length)) ∧
      (pyShuffle rb (List.range manifest.length)).Perm
        (List.range manifest.length) ∧
      (applyOrder manifest
        (pyShuffle rb (List.range manifest.length))).Perm manifest ∧
      ansPages manifest (pyShuffle rb (List.range manifest.length)) =
        ((applyOrder manifest (pyShuffle rb (List.range manifest.length))).filter
          (fun it => it.ms.isSome)).filterMap (fun it => it.ms) ∧
      ((applyOrder manifest (pyShuffle rb (List.range manifest.length))).filter
        (fun it => it.ms.isSome)).Sublist
        (applyOrder manifest (pyShuffle rb (List.range manifest.length))) := by
  intro rb rb2 manifest
  refine ⟨?_, pyShuffle_perm rb _,
    applyOrder_perm (pyShuffle_perm rb _), ?_, List.filter_sublist _⟩
  · intro h
    have : rb = rb2 := funext fun i => funext fun b => h i b
    rw [this]
  · exact filterMap_ms_eq_filter

theorem C6_shuffle_witness :
    pyShuffle (fun i b => i + b) (List.range 3) =
      pyShuffle (fun i b => i + b) (List.range 3) :=
  (C6_shuffle_determinism_and_pairing (fun i b => i + b) (fun i b => i + b)
    [⟨⟨"9709", "w", "24", "11"⟩, 1, "f", "A_Q1_T", none⟩,
     ⟨⟨"9709", "w", "24", "11"⟩, 2, "f", "A_Q2_T", none⟩,
     ⟨⟨"9709", "w", "24", "11"⟩, 3, "f", "A_Q3_T", none⟩]).1
    (fun _ _ => rfl)

/-! ## C8: omitted answer output -/

/-- C8: assembly always emits the quiz output; the answer output is `None`
exactly when no record of the (order-covered) manifest has a bound answer,
and is a real output path as soon as one record has one. -/
theorem C8_answer_output :
    ∀ (manifest missing : List QItem) (order : List Nat) (qp ap : String),
      order.Perm (List.range manifest.length) →
      (assembleOutputs manifest missing order qp ap).1 = some qp ∧
      ((assembleOutputs manifest missing order qp ap).2.1 = none ↔
        ∀ it ∈ manifest, it.ms = none) := by
  intro m missing order qp ap hperm
  refine ⟨rfl, ?_⟩
  show (if ansPages m order = [] then (none : Option String) else some ap)
      = none ↔ ∀ it ∈ m, it.ms = none
  by_cases h : ansPages m order = []
  · rw [if_pos h]
    constructor
    · intro _ it hit
      have hall := List.filterMap_eq_nil_iff.mp h
      exact hall it (((applyOrder_perm hperm).mem_iff).mpr hit)
    · intro _
      rfl
  · rw [if_neg h]
    constructor
    · intro hcontra
      exact absurd hcontra (by simp)
    · intro hall
      exfalso
      apply h
      rw [show ansPages m order =
            (applyOrder m order).filterMap (fun it => it.ms) from rfl,
        List.filterMap_eq_nil_iff]
      intro it hit
      exact hall it (((applyOrder_perm hperm).mem_iff).mp hit)

theorem C8_answer_output_witness :
    (assembleOutputs [⟨⟨"9709", "w", "24", "11"⟩, 1, "f", "A_Q1_T", none⟩]
      [⟨⟨"9709", "w", "24", "11"⟩, 1, "f", "A_Q1_T", none⟩] [0]
      "quiz.pdf" "ans.pdf").2.1 = none ∧
    (assembleOutputs
      [⟨⟨"9709", "w", "24", "11"⟩, 1, "f", "A_Q1_T", some "B_Q1_ANS"⟩] [] [0]
      "quiz.pdf" "ans.pdf").2.1 ≠ none :=
  ⟨(C8_answer_output [⟨⟨"9709", "w", "24", "11"⟩, 1, "f", "A_Q1_T", none⟩]
      [⟨⟨"9709", "w", "24", "11"⟩, 1, "f", "A_Q1_T", none⟩] [0]
      "quiz.pdf" "ans.pdf" (by decide)).2.mpr (by decide),
   fun hnone => absurd
    ((C8_answer_output
      [⟨⟨"9709", "w", "24", "11"⟩, 1, "f", "A_Q1_T", some "B_Q1_ANS"⟩] []
      [0] "quiz.pdf" "ans.pdf" (by decide)).2.mp hnone)
    (by decide)⟩

/-! ## C9: reported statistics -/

/-- C9 counterexample: the `quiz_pages` statistic counts merged source
documents, not pages of the emitted output.  With one matched single
question whose source document has 3 pages, the output document has 3
pages but the statistic reports 1. -/
theorem C9_counterexample :
    (assembleOutputs [⟨⟨"9709", "w", "24", "11"⟩, 1, "f", "A_Q1_T", none⟩]
      [] [0] "quiz.pdf" "ans.pdf").2.2.quiz_pages = 1 ∧
    totalPages (fun _ => 3)
      (quizPages [⟨⟨"9709", "w", "24", "11"⟩, 1, "f", "A_Q1_T", none⟩] [0])
      = 3 ∧
    (assembleOutputs [⟨⟨"9709", "w", "24", "11"⟩, 1, "f", "A_Q1_T", none⟩]
      [] [0] "quiz.pdf" "ans.pdf").2.2.quiz_pages ≠
      totalPages (fun _ => 3)
        (quizPages [⟨⟨"9709", "w", "24", "11"⟩, 1, "f", "A_Q1_T", none⟩] [0]) := by
  refine ⟨by decide, by decide, by decide⟩

theorem totalPages_ones {pc : String → Nat} :
    ∀ docs : List String, (∀ d ∈ docs, pc d = 1) →
      totalPages pc docs = docs.length := by
  intro docs
  induction docs with
  | nil => intro _; rfl
  | cons d rest ih =>
      intro h
      rw [show totalPages pc (d :: rest) = pc d + totalPages pc rest from rfl,
        h d (by simp), ih (fun x hx => h x (by simp [hx]))]
      simp [Nat.add_comm]

/-- C9 (amended): the statistics record reports the matched-question count,
the missing-answer count, the number of source documents merged into each
output (the `quiz_pages`/`answer_pages` fields), and the two output paths
with the answer path `None` when omitted.  The document counts equal the
emitted outputs' page counts only when every merged source document has
exactly one page. -/
theorem C9_statistics :
    ∀ (manifest missing : List QItem) (order : List Nat) (qp ap : String)
      (pc : String → Nat),
      (assembleOutputs manifest missing order qp ap).2.2.matched_questions
          = manifest.length ∧
      (assembleOutputs manifest missing order qp ap).2.2.missing_answers
          = missing.length ∧
      (assembleOutputs manifest missing order qp ap).2.2.quiz_pages
          = (quizPages manifest order).length ∧
      (assembleOutputs manifest missing order qp ap).2.2.answer_pages
          = (ansPages manifest order).length ∧
      (assembleOutputs manifest missing order qp ap).2.2.output_quiz = qp ∧
      (assembleOutputs manifest missing order qp ap).2.2.output_answers
          = (assembleOutputs manifest missing order qp ap).2.1 ∧
      ((∀ d ∈ quizPages manifest order, pc d = 1) →
        (assembleOutputs manifest missing order qp ap).2.2.quiz_pages
          = totalPages pc (quizPages manifest order)) ∧
      ((∀ d ∈ ansPages manifest order, pc d = 1) →
        (assembleOutputs manifest missing order qp ap).2.2.answer_pages
          = totalPages pc (ansPages manifest order)) := by
  intro manifest missing order qp ap pc
  refine ⟨rfl, rfl, rfl, rfl, rfl, rfl, ?_, ?_⟩
  · intro h
    rw [totalPages_ones _ h]
    rfl
  · intro h
    rw [totalPages_ones _ h]
    rfl

theorem C9_statistics_witness :
    (assembleOutputs [⟨⟨"9709", "w", "24", "11"⟩, 1, "f", "A_Q1_T", none⟩]
      [] [0] "quiz.pdf" "ans.pdf").2.2.quiz_pages =
      totalPages (fun _ => 1)
        (quizPages [⟨⟨"9709", "w", "24", "11"⟩, 1, "f", "A_Q1_T", none⟩] [0]) :=
  (C9_statistics [⟨⟨"9709", "w", "24", "11"⟩, 1, "f", "A_Q1_T", none⟩]
    [] [0] "quiz.pdf" "ans.pdf" (fun _ => 1)).2.2.2.2.2.2.1 (by decide)

/-- C3 counterexample: with the top-left corner anchor, the first (and
only) page of the first record receives a bare corner label — no filled
rectangle at all — contradicting "the record's first page receives an
overlay consisting of a solid-filled rectangle with the label centered
inside it" for corner anchors. -/
theorem C3_counterexample :
    merge_with_numbers (fun _ => 20) "TL" 18 18 true
        [[⟨⟨0, 0, 600, 800⟩, ⟨0, 0, 600, 800⟩⟩]] =
      [(⟨⟨0, 0, 600, 800⟩, ⟨0, 0, 600, 800⟩⟩,
        overlayFor (fun _ => 20) "TL" 18 18 true ("Q" ++ toString (0 + 1))
          ⟨⟨0, 0, 600, 800⟩, ⟨0, 0, 600, 800⟩⟩ 0)] ∧
    isLabeledRect
      (overlayFor (fun _ => 20) "TL" 18 18 true ("Q" ++ toString (0 + 1))
        ⟨⟨0, 0, 600, 800⟩, ⟨0, 0, 600, 800⟩⟩ 0) = false := by
  exact ⟨rfl, rfl⟩

/-- C3 (amended): with renumbering enabled, the record at 1-based output
position `n` is labelled `"Q" ++ n`, a function of the output position
only.  At the two center anchors its first page receives the solid-filled
rectangle with the label centered inside (equal gaps on both sides,
horizontally and vertically), and, when continuation masking is on, every
subsequent page of the record receives that same rectangle with no text.
At the four corner anchors the first page receives only the bare label
text (no rectangle) and continuation pages are never masked. -/
theorem C3_renumber_overlays :
    ∀ (tw : String → ℚ) (whereStr : String) (margin fontSize : ℚ)
      (blankOther : Bool) (docs : List (List Page)) (lbl : String)
      (pg : Page) (pIdx : Nat),
      (merge_with_numbers tw whereStr margin fontSize blankOther docs =
        List.flatten (docs.enum.map fun iDoc => iDoc.2.enum.map fun pPg =>
          (pPg.2, overlaySpec tw whereStr margin fontSize blankOther
            ("Q" ++ toString (iDoc.1 + 1)) pPg.2 pPg.1))) ∧
      ((strUpper whereStr = "TC" ∨ strUpper whereStr = "BC") →
        ∃ rx ry rw rh tx ty,
          overlaySpec tw whereStr margin fontSize blankOther lbl pg 0 =
            .labelRect rx ry rw rh lbl tx ty ∧
          tx - rx = (rx + rw) - (tx + tw lbl) ∧
          ty - ry = (ry + rh) - (ty + fontSize) ∧
          (0 < pIdx → blankOther = true →
            overlaySpec tw whereStr margin fontSize blankOther lbl pg pIdx =
              .blankRect rx ry rw rh)) ∧
      (0 < pIdx → ¬(strUpper whereStr = "TC" ∨ strUpper whereStr = "BC") →
        overlaySpec tw whereStr margin fontSize blankOther lbl pg pIdx =
          .noOv) := by
  intro tw whereStr margin fontSize blankOther docs lbl pg pIdx
  refine ⟨?_, ?_, ?_⟩
  · simp only [merge_with_numbers, overlayFor_eq_spec]
  · intro hc
    refine ⟨pg.crop.left + pg.crop.w / 2 - max 140 (tw lbl + 16) / 2,
      (if strUpper whereStr = "TC"
        then pg.crop.bottom + pg.crop.h - margin - (fontSize + 6)
        else pg.crop.bottom + margin),
      max 140 (tw lbl + 16), fontSize + 6,
      (pg.crop.left + pg.crop.w / 2 - max 140 (tw lbl + 16) / 2) +
        (max 140 (tw lbl + 16) - tw lbl) / 2,
      (if strUpper whereStr = "TC"
        then pg.crop.bottom + pg.crop.h - margin - (fontSize + 6)
        else pg.crop.bottom + margin) + ((fontSize + 6) - fontSize) / 2,
      ?_, by ring, by ring, ?_⟩
    · by_cases hTC : strUpper whereStr = "TC"
      · simp [overlaySpec, hTC]
      · have hBC := hc.resolve_left hTC
        simp [overlaySpec, hTC, hBC]
    · intro hp hb
      have hne : pIdx ≠ 0 := Nat.pos_iff_ne_zero.mp hp
      by_cases hTC : strUpper whereStr = "TC"
      · simp [overlaySpec, hTC, hne, hb]
      · have hBC := hc.resolve_left hTC
        simp [overlaySpec, hTC, hBC, hne, hb]
  · intro hp hnc
    have hne : pIdx ≠ 0 := Nat.pos_iff_ne_zero.mp hp
    have h1 : ¬ strUpper whereStr = "TC" := fun h => hnc (Or.inl h)
    have h2 : ¬ strUpper whereStr = "BC" := fun h => hnc (Or.inr h)
    simp [overlaySpec, h1, h2, hne]

theorem C3_renumber_overlays_witness :
    (∃ rx ry rw rh tx ty,
      overlaySpec (fun s => (s.length : ℚ)) "TC" 24 18 true "Q1"
          ⟨⟨0, 0, 600, 800⟩, ⟨0, 0, 600, 800⟩⟩ 0 =
        .labelRect rx ry rw rh "Q1" tx ty ∧
      tx - rx = (rx + rw) - (tx + ((("Q1" : String).length : ℚ))) ∧
      ty - ry = (ry + rh) - (ty + 18) ∧
      (0 < 2 → true = true →
        overlaySpec (fun s => (s.length : ℚ)) "TC" 24 18 true "Q1"
            ⟨⟨0, 0, 600, 800⟩, ⟨0, 0, 600, 800⟩⟩ 2 =
          .blankRect rx ry rw rh)) ∧
    overlaySpec (fun s => (s.length : ℚ)) "TL" 24 18 true "Q1"
        ⟨⟨0, 0, 600, 800⟩, ⟨0, 0, 600, 800⟩⟩ 1 = .noOv :=
  ⟨(C3_renumber_overlays (fun s => (s.length : ℚ)) "TC" 24 18 true [] "Q1"
      ⟨⟨0, 0, 600, 800⟩, ⟨0, 0, 600, 800⟩⟩ 2).2.1 (Or.inl (by decide)),
   (C3_renumber_overlays (fun s => (s.length : ℚ)) "TL" 24 18 true [] "Q1"
      ⟨⟨0, 0, 600, 800⟩, ⟨0, 0, 600, 800⟩⟩ 1).2.2 (by decide)
      (by decide)⟩
